import Mathlib

/-!
Shallow embedding of the QANet layer code (`QANetLayers.py`) and of the
evaluation/ensembling driver (`test.py`), with theorems checking the
natural-language specification against it.

Tensors are embedded as index functions into `ℝ`; batch, sequence and
feature indices are natural numbers.  Dropout layers are modelled at
evaluation time (identity) except where a training flag is threaded
explicitly.  Machine floating point is idealised as exact real
arithmetic.
-/

noncomputable section

/-- Kinds of runtime errors raised by the embedded Python/PyTorch
operations: a failing `assert`, an out-of-range index, an incompatible
broadcast in an elementwise operation, and an impossible `.view` reshape. -/
inductive TorchErr where
  | assertionError
  | indexOutOfRange
  | broadcastMismatch
  | viewMismatch
  deriving DecidableEq, Repr

/-! ## Driver ensembling (`test.py`, lines 97-145) -/

/-- Embeds `test.py` lines 97-143 (ensembling branch): the running sum
`avg_log_p1 = avg_log_p1 + log_p1` over the checkpoints, starting from a
zero tensor, finally divided by `len(args.ensemble_list)`.  Each model's
output is a log-probability vector, embedded as a function from positions
to `ℝ`. -/
def ensemble_avg_log_p (logps : List (ℕ → ℝ)) : ℕ → ℝ :=
  fun t => (logps.foldl (fun acc l => acc + l t) 0) / logps.length

/-- Embeds `test.py` line 145, `p1 = avg_log_p1.exp()`: the combined
distribution the driver feeds to span decoding in ensembling mode. -/
def ensemble_p (logps : List (ℕ → ℝ)) : ℕ → ℝ :=
  fun t => Real.exp (ensemble_avg_log_p logps t)

/-- Written from the spec's words (§4.5): the arithmetic mean of the
individual models' probabilities — "averages the exponentials of two or
more models' log-probabilities". -/
def spec_ensemble_p (logps : List (ℕ → ℝ)) : ℕ → ℝ :=
  fun t => (logps.map (fun l => Real.exp (l t))).sum / logps.length

/-! ## CausalSelfAttention (`QANetLayers.py`, lines 32-72) -/

/-- Shape-level state retained by `CausalSelfAttention.__init__`
(`QANetLayers.py` lines 39-51): the constructor arguments. -/
structure CSAShape where
  n_embd : ℕ
  n_head : ℕ
  attn_pdrop : ℚ
  resid_pdrop : ℚ
  block_size : ℕ
  deriving DecidableEq, Repr

/-- Embeds `CausalSelfAttention.__init__`: `assert n_embd % n_head == 0`
runs before anything else; a failing `assert` raises `AssertionError` at
construction time, otherwise the module is built. -/
def CausalSelfAttention.init (n_embd n_head : ℕ) (attn_pdrop resid_pdrop : ℚ)
    (block_size : ℕ) : Except TorchErr CSAShape :=
  if n_embd % n_head = 0 then
    .ok ⟨n_embd, n_head, attn_pdrop, resid_pdrop, block_size⟩
  else
    .error .assertionError

/-- Learned parameters of the four `nn.Linear(n_embd, n_embd)` layers of
`CausalSelfAttention` (key, query, value, proj), each with a weight matrix
and a bias vector (`nn.Linear` has a bias by default). -/
structure CSAParams where
  wK : ℕ → ℕ → ℝ
  bK : ℕ → ℝ
  wQ : ℕ → ℕ → ℝ
  bQ : ℕ → ℝ
  wV : ℕ → ℕ → ℝ
  bV : ℕ → ℝ
  wP : ℕ → ℕ → ℝ
  bP : ℕ → ℝ

/-- Embeds `nn.Linear` applied to one feature vector: `W x + b` with input
width `n`. -/
def linearMap (n : ℕ) (W : ℕ → ℕ → ℝ) (bv : ℕ → ℝ) (x : ℕ → ℝ) : ℕ → ℝ :=
  fun o => (∑ i ∈ Finset.range n, W o i * x i) + bv o

/-- Embeds `.view(B, T, n_head, C // n_head).transpose(1, 2)`: index
`[b, h, t, d]` reads feature `h * (C / n_head) + d` of the projected
vector at `[b, t]`. -/
def headView (ne nh : ℕ) (v : ℕ → ℕ → ℕ → ℝ) : ℕ → ℕ → ℕ → ℕ → ℝ :=
  fun b h t d => v b t (h * (ne / nh) + d)

/-- Embeds `QANetLayers.py` line 63: raw attention scores
`(q @ k.transpose(-2, -1)) * (1.0 / math.sqrt(k.size(-1)))`, with
`k.size(-1) = C // n_head`. -/
def attScores (ne nh : ℕ) (p : CSAParams) (x : ℕ → ℕ → ℕ → ℝ) :
    ℕ → ℕ → ℕ → ℕ → ℝ :=
  fun b h t u =>
    (∑ d ∈ Finset.range (ne / nh),
        headView ne nh (fun b' t' => linearMap ne p.wQ p.bQ (x b' t')) b h t d *
          headView ne nh (fun b' t' => linearMap ne p.wK p.bK (x b' t')) b h u d) *
      (1 / Real.sqrt ((ne / nh : ℕ) : ℝ))

/-- Embeds `QANetLayers.py` lines 61-64: `mask.view(B, 1, 1, -1)` is
broadcast over heads and query positions, then
`att.masked_fill(mask == 0, -1e10)` overwrites the scores of the padding
key positions with the large negative constant `-1e10`. -/
def attMasked (ne nh : ℕ) (p : CSAParams) (x : ℕ → ℕ → ℕ → ℝ)
    (mask : ℕ → ℕ → ℕ) : ℕ → ℕ → ℕ → ℕ → ℝ :=
  fun b h t u =>
    if mask b u = 0 then (-1e10 : ℝ) else attScores ne nh p x b h t u

/-- Embeds `QANetLayers.py` line 65: `att = F.softmax(att, dim=-1)` over
the `T` key positions. -/
def attWeights (ne nh T : ℕ) (p : CSAParams) (x : ℕ → ℕ → ℕ → ℝ)
    (mask : ℕ → ℕ → ℕ) : ℕ → ℕ → ℕ → ℕ → ℝ :=
  fun b h t u =>
    Real.exp (attMasked ne nh p x mask b h t u) /
      ∑ u' ∈ Finset.range T, Real.exp (attMasked ne nh p x mask b h t u')

/-- Embeds `QANetLayers.py` lines 66-68 at evaluation time (`attn_drop` is
the identity): `y = att @ v`, heads re-assembled side by side by
`transpose(1, 2).contiguous().view(B, T, C)`, so feature `c` comes from
head `c / (C / n_head)` at head-feature `c % (C / n_head)`. -/
def csaY (ne nh T : ℕ) (p : CSAParams) (x : ℕ → ℕ → ℕ → ℝ)
    (mask : ℕ → ℕ → ℕ) : ℕ → ℕ → ℕ → ℝ :=
  fun b t c =>
    ∑ u ∈ Finset.range T,
      attWeights ne nh T p x mask b (c / (ne / nh)) t u *
        headView ne nh (fun b' t' => linearMap ne p.wV p.bV (x b' t'))
          b (c / (ne / nh)) u (c % (ne / nh))

/-- Embeds the full `CausalSelfAttention.forward` (`QANetLayers.py` lines
53-72) at evaluation time: output projection applied to the re-assembled
head outputs (`resid_drop` is the identity at evaluation time). -/
def CausalSelfAttention.forward (ne nh T : ℕ) (p : CSAParams)
    (x : ℕ → ℕ → ℕ → ℝ) (mask : ℕ → ℕ → ℕ) : ℕ → ℕ → ℕ → ℝ :=
  fun b t => linearMap ne p.wP p.bP (csaY ne nh T p x mask b t)

/-- Embeds `CausalSelfAttention.forward` with the shape requirement of
`.view(B, T, n_head, C // n_head)` made explicit: the reshape succeeds iff
`n_head * (C / n_head) = C` (with `C = n_embd`, since the preceding linear
layers force the feature width); otherwise PyTorch raises a runtime shape
error at forward time. -/
def CausalSelfAttention.forwardChecked (sh : CSAShape) (p : CSAParams)
    (T : ℕ) (x : ℕ → ℕ → ℕ → ℝ) (mask : ℕ → ℕ → ℕ) :
    Except TorchErr (ℕ → ℕ → ℕ → ℝ) :=
  if sh.n_head * (sh.n_embd / sh.n_head) = sh.n_embd then
    .ok (CausalSelfAttention.forward sh.n_embd sh.n_head T p x mask)
  else
    .error .viewMismatch

/-- Concrete scenario mask of spec §8: batch of 2, sequence length 5, row
0 masked `[1, 1, 1, 0, 0]`, row 1 all valid. -/
def scenarioMask : ℕ → ℕ → ℕ :=
  fun b t => if b = 0 then (if t < 3 then 1 else 0) else 1

/-- All-zero attention parameters, used to instantiate witnesses and
counterexamples. -/
def zeroParams : CSAParams :=
  ⟨fun _ _ => 0, fun _ => 0, fun _ _ => 0, fun _ => 0,
   fun _ _ => 0, fun _ => 0, fun _ _ => 0, fun _ => 0⟩

/-- All-zero input activations, used to instantiate witnesses and
counterexamples. -/
def zeroX : ℕ → ℕ → ℕ → ℝ :=
  fun _ _ _ => 0

/-! ## Block (`QANetLayers.py`, lines 74-139) -/

/-- Configuration state built by `Block.__init__` (`QANetLayers.py` lines
77-112): the shape-level fields relevant to construction.  The attention
submodule is created with the hard-coded arguments `n_head = 8`,
`attn_pdrop = 0.1`, `block_size = 128`. -/
structure BlockCfg where
  hidden_size : ℕ
  resid_pdrop : ℚ
  num_convs : ℕ
  attn : CSAShape
  deriving DecidableEq, Repr

/-- Embeds `Block.__init__`: it constructs
`CausalSelfAttention(n_embd=hidden_size, n_head=8, attn_pdrop=0.1,
resid_pdrop=resid_pdrop, block_size=128)`; a failing divisibility assert
inside that constructor propagates as the construction error of the whole
block. -/
def Block.init (hidden_size : ℕ) (resid_pdrop : ℚ) (num_convs : ℕ) :
    Except TorchErr BlockCfg := do
  let attn ← CausalSelfAttention.init hidden_size 8 (1 / 10) resid_pdrop 128
  return ⟨hidden_size, resid_pdrop, num_convs, attn⟩

/-- Learned submodules of `Block` (`QANetLayers.py` lines 77-112) as
abstract functions on an activation type `V` with masks of type `M`:
`position_encoder`, `conv_ln`, `convolution` (the whole `nn.Sequential`,
dropout included), `attn_ln`, `attn`, `ff_ln`, `ff_1`, its rectifier,
`ff_2`, and the two `F.dropout` transformations applied in `forward`. -/
structure BlockM (V M : Type) where
  posenc : V → V
  convLn : V → V
  convolution : V → V
  attnLn : V → V
  attn : V → M → V
  ffLn : V → V
  ff1 : V → V
  relu : V → V
  ff2 : V → V
  dropAttn : V → V
  dropFF : V → V

/-- Embeds `F.dropout(x, p=0.1, training=self.training)`: the dropout
transformation fires only in training mode and is the identity
otherwise. -/
def dropT {V : Type} (training : Bool) (d : V → V) (x : V) : V :=
  if training then d x else x

/-- Embeds the convolution loop of `Block.forward` (`QANetLayers.py` lines
119-123) on the paired state `(x, residual)`: each iteration runs
`x = conv_ln(x)`, `x = convolution(x)`, `x += residual`, `residual = x`. -/
def Block.convLoop {V M : Type} [Add V] (m : BlockM V M) :
    ℕ → V × V → V × V
  | 0, s => s
  | n + 1, s =>
      Block.convLoop m n
        (m.convolution (m.convLn s.1) + s.2, m.convolution (m.convLn s.1) + s.2)

/-- Embeds `Block.forward` (`QANetLayers.py` lines 114-139) statement by
statement: positional encoding, `num_convs` convolution sublayers, the
attention sublayer `x = x + self.attn(x, mask) + residual`, and the
feed-forward sublayer `x += residual`. -/
def Block.forwardM {V M : Type} [Add V] (m : BlockM V M) (numConvs : ℕ)
    (training : Bool) (x0 : V) (mask : M) : V :=
  let x1 := m.posenc x0
  let s := Block.convLoop m numConvs (x1, x1)
  let x2 := dropT training m.dropAttn (m.attnLn s.1)
  let x3 := x2 + m.attn x2 mask + s.2
  let x4 := dropT training m.dropFF (m.ffLn x3)
  let x5 := m.ff2 (m.relu (m.ff1 x4))
  x5 + x3

/-- Convolution-stage output of `Block.forward`: the activation (equal to
the carried residual) leaving the convolution loop. -/
def Block.convOut {V M : Type} [Add V] (m : BlockM V M) (n : ℕ) (x0 : V) : V :=
  (fun c => m.convolution (m.convLn c) + c)^[n] (m.posenc x0)

/-- Written from the spec's words (§4.3 step 3): the attention sublayer as
the claim describes it — `y` is the layer-normalized, dropout-processed
value, and the new running activation is the triple addition
`y + attn(y, mask) + residual`. -/
def Block.attnTripleAdd {V M : Type} [Add V] (m : BlockM V M)
    (training : Bool) (mask : M) (c : V) : V :=
  let y := dropT training m.dropAttn (m.attnLn c)
  y + m.attn y mask + c

/-- Feed-forward sublayer of `Block.forward` (`QANetLayers.py` lines
132-137). -/
def Block.ffStage {V M : Type} [Add V] (m : BlockM V M) (training : Bool)
    (x : V) : V :=
  m.ff2 (m.relu (m.ff1 (dropT training m.dropFF (m.ffLn x)))) + x

/-- Written from the spec's words (§9): standard transformer residual
wiring of the attention sublayer — the sublayer output is added to the
residual exactly once, without the extra normalized-path term. -/
def Block.attnStdAdd {V M : Type} [Add V] (m : BlockM V M)
    (training : Bool) (mask : M) (c : V) : V :=
  c + m.attn (dropT training m.dropAttn (m.attnLn c)) mask

/-- Variant of `Block.forward` with the standard single-residual attention
wiring, for contrast with the code's triple addition. -/
def Block.forwardStd {V M : Type} [Add V] (m : BlockM V M) (numConvs : ℕ)
    (training : Bool) (x0 : V) (mask : M) : V :=
  Block.ffStage m training
    (Block.attnStdAdd m training mask (Block.convOut m numConvs x0))

/-- Concrete one-dimensional `Block` instantiation (identity submodules,
zero convolution and attention), used to separate the code's wiring from
the standard wiring. -/
def blockId : BlockM ℝ Unit :=
  ⟨id, id, fun _ => 0, id, fun _ _ => 0, id, id, id, id, id, id⟩

/-! ## position_encoding (`QANetLayers.py`, lines 12-28) -/

/-- Entry `[p, j]` of the positional-encoding table built in
`position_encoding.__init__` (`QANetLayers.py` lines 16-21): with
`val[i] = exp((2*i) * -(log 10000 / n_embd))`, the strided assignments
`pos_encodings[:, 0::2] = sin(pos * val)` and
`pos_encodings[:, 1::2] = cos(pos * val)` place `sin(p * val[j / 2])` at
even `j` and `cos(p * val[j / 2])` at odd `j`. -/
def peVal (n_embd : ℕ) (p j : ℕ) : ℝ :=
  let freq := Real.exp (((2 * (j / 2) : ℕ) : ℝ) * (-(Real.log 10000 / (n_embd : ℝ))))
  if j % 2 = 0 then Real.sin ((p : ℝ) * freq) else Real.cos ((p : ℝ) * freq)

/-- Rank-3 tensor: three dimension sizes and an index function (reads
outside the shape are irrelevant junk values). -/
structure Tensor3 where
  dim0 : ℕ
  dim1 : ℕ
  dim2 : ℕ
  data : ℕ → ℕ → ℕ → ℝ

/-- PyTorch broadcasting of one dimension pair: sizes must be equal or one
of them must be 1; otherwise the elementwise operation raises a
size-mismatch runtime error. -/
def bcDim (a b : ℕ) : Option ℕ :=
  if a = b then some a
  else if a = 1 then some b
  else if b = 1 then some a
  else none

/-- Index adjustment for a broadcast dimension of size `dim`: a size-1
dimension is always read at index 0. -/
def bIdx (dim i : ℕ) : ℕ :=
  if dim = 1 then 0 else i

/-- Broadcasting elementwise addition `x + y` of two rank-3 tensors,
failing with a broadcast size mismatch exactly when some dimension pair is
incompatible. -/
def tensorAdd (x y : Tensor3) : Except TorchErr Tensor3 :=
  match bcDim x.dim0 y.dim0, bcDim x.dim1 y.dim1, bcDim x.dim2 y.dim2 with
  | some d0, some d1, some d2 =>
      .ok ⟨d0, d1, d2, fun i j k =>
        x.data (bIdx x.dim0 i) (bIdx x.dim1 j) (bIdx x.dim2 k) +
          y.data (bIdx y.dim0 i) (bIdx y.dim1 j) (bIdx y.dim2 k)⟩
  | _, _, _ => .error .broadcastMismatch

/-- Registered buffer `pos_encodings` after `unsqueeze(0)`
(`QANetLayers.py` line 22): shape `[1, seq_len, n_embd]`. -/
def peTable (n_embd seq_len : ℕ) : Tensor3 :=
  ⟨1, seq_len, n_embd, fun _ p j => peVal n_embd p j⟩

/-- Python slicing `t[:, :T]` along dimension 1: it keeps `min T dim1`
rows and never raises, whatever `T` is. -/
def sliceDim1 (t : Tensor3) (T : ℕ) : Tensor3 :=
  ⟨t.dim0, min T t.dim1, t.dim2, t.data⟩

/-- Embeds `position_encoding.forward` (`QANetLayers.py` lines 25-28):
`x + self.pos_encodings[:, :x.shape[1]]` as a broadcasting addition of the
input and the sliced table. -/
def position_encoding.forward (n_embd seq_len : ℕ) (x : Tensor3) :
    Except TorchErr Tensor3 :=
  tensorAdd x (sliceDim1 (peTable n_embd seq_len) x.dim1)

/-! ## QANetOutput (`QANetLayers.py`, lines 141-153) -/

/-- Modelled from the spec: `util.masked_softmax` is imported by
`QANetLayers.py` but its source file `util.py` is not in the repository
snapshot.  Per spec §4.4 and the glossary, a masked softmax restricts the
softmax to the valid positions of the mask and forces invalid positions to
probability ~0 (modelled as exactly 0); with `log_softmax=True` the
returned values are the logarithms of these probabilities, so this
definition computes the exponentials of the returned log-probabilities,
i.e. the probabilities themselves.  `s` is a logit row, `mask` the
validity row, `T` the sequence length. -/
def masked_softmax_probs (s : ℕ → ℝ) (mask : ℕ → ℕ) (T : ℕ) : ℕ → ℝ :=
  fun t =>
    if t < T ∧ mask t ≠ 0 then
      Real.exp (s t) /
        ∑ u ∈ (Finset.range T).filter (fun u => mask u ≠ 0), Real.exp (s u)
    else 0

/-- Embeds `torch.cat((a, b), dim=2)` on one `[b, t]`-slice: features
`0 .. H-1` come from `a`, features `H .. 2H-1` from `b`. -/
def cat2 (H : ℕ) (a b : ℕ → ℝ) : ℕ → ℝ :=
  fun j => if j < H then a j else b (j - H)

/-- Embeds `QANetOutput.forward` (`QANetLayers.py` lines 146-153) at value
level: projects `cat(M1, M2)` and `cat(M2, M3)` through the bias-free
linear maps `w1`, `w2` and applies the masked log-softmax per batch row.
Following the spec model of `masked_softmax`, the returned rows are the
exponentials of the log-probabilities; `squeeze()` changes only shapes,
never values. -/
def QANetOutput.forward (H T : ℕ) (w1 w2 : ℕ → ℝ)
    (M1 M2 M3 : ℕ → ℕ → ℕ → ℝ) (mask : ℕ → ℕ → ℕ) :
    (ℕ → ℕ → ℝ) × (ℕ → ℕ → ℝ) :=
  (fun b => masked_softmax_probs
      (fun t => ∑ j ∈ Finset.range (2 * H), w1 j * cat2 H (M1 b t) (M2 b t) j)
      (mask b) T,
   fun b => masked_softmax_probs
      (fun t => ∑ j ∈ Finset.range (2 * H), w2 j * cat2 H (M2 b t) (M3 b t) j)
      (mask b) T)

/-- Embeds `torch.Tensor.squeeze()` with no arguments at shape level: it
removes every dimension of size 1. -/
def squeezeShape (shape : List ℕ) : List ℕ :=
  shape.filter (fun d => d ≠ 1)

/-- Shape of each tensor returned by `QANetOutput.forward`: the linear
projection produces `[B, T, 1]`, the unqualified `squeeze()` removes all
unit dimensions, and the masked softmax (spec model: shape-preserving)
keeps the result. -/
def QANetOutput.outShape (B T : ℕ) : List ℕ :=
  squeezeShape [B, T, 1]

/-! ## Submission file (`test.py`, lines 195-199) -/

/-- Embeds the submission rows written by `test.py` lines 195-199: the
header `['Id', 'Predicted']` followed by one row `[uuid, sub_dict[uuid]]`
for each key of `sub_dict` in Python `sorted` order.  The dict is embedded
as an association list; `sorted` over its keys is modelled by an insertion
sort under the lexicographic string order, and `sub_dict[uuid]` by an
association-list lookup. -/
def writeSubmission (sub : List (String × String)) : List (List String) :=
  ["Id", "Predicted"] ::
    ((sub.map Prod.fst).insertionSort (· ≤ ·)).map
      (fun u => [u, ((sub.lookup u).getD "")])

/-! ## Statement wrappers -/

/-- Statement wrapper for the table formula: entries `[p, 2i]` and
`[p, 2i+1]` of the positional-encoding table match the spec's analytic
sinusoidal formula (even dimension sine, odd dimension cosine, shared
geometrically decreasing frequency). -/
def peFormulaAt (n_embd p i : ℕ) : Prop :=
  peVal n_embd p (2 * i) =
      Real.sin ((p : ℝ) *
        Real.exp (((2 * i : ℕ) : ℝ) * (-(Real.log 10000 / (n_embd : ℝ))))) ∧
  peVal n_embd p (2 * i + 1) =
      Real.cos ((p : ℝ) *
        Real.exp (((2 * i : ℕ) : ℝ) * (-(Real.log 10000 / (n_embd : ℝ)))))

/-- Statement wrapper for the forward contract: `position_encoding.forward`
succeeds, preserves the input shape, and returns the input plus the table
entrywise on the input's shape. -/
def peForwardOk (n_embd seq_len : ℕ) (x : Tensor3) : Prop :=
  ∃ y, position_encoding.forward n_embd seq_len x = .ok y ∧
    y.dim0 = x.dim0 ∧ y.dim1 = x.dim1 ∧ y.dim2 = x.dim2 ∧
    ∀ b t j, b < x.dim0 → t < x.dim1 → j < x.dim2 →
      y.data b t j = x.data b t j + peVal n_embd t j

/-- Statement wrapper for the `QANetOutput` distribution guarantee on batch
row `b`: both returned rows sum to 1 over the valid positions and are 0 at
every masked position. -/
def qanetDistOk (H T : ℕ) (w1 w2 : ℕ → ℝ) (M1 M2 M3 : ℕ → ℕ → ℕ → ℝ)
    (mask : ℕ → ℕ → ℕ) (b : ℕ) : Prop :=
  (∑ t ∈ (Finset.range T).filter (fun t => mask b t ≠ 0),
      (QANetOutput.forward H T w1 w2 M1 M2 M3 mask).1 b t) = 1
  ∧ (∀ t, mask b t = 0 → (QANetOutput.forward H T w1 w2 M1 M2 M3 mask).1 b t = 0)
  ∧ (∑ t ∈ (Finset.range T).filter (fun t => mask b t ≠ 0),
      (QANetOutput.forward H T w1 w2 M1 M2 M3 mask).2 b t) = 1
  ∧ (∀ t, mask b t = 0 → (QANetOutput.forward H T w1 w2 M1 M2 M3 mask).2 b t = 0)

/-! ## Helper lemmas -/

/-- Helper: folding addition of the models' outputs at a position equals
the accumulator plus the list sum. -/
theorem foldl_add_apply (t : ℕ) (logps : List (ℕ → ℝ)) :
    ∀ a : ℝ, logps.foldl (fun acc l => acc + l t) a
      = a + (logps.map (fun l => l t)).sum := by
  induction logps with
  | nil => intro a; simp
  | cons l ls ih => intro a; simp [ih, add_assoc]

/-- Helper: the product of exponentials is the exponential of the sum. -/
theorem prod_map_exp (xs : List ℝ) :
    (xs.map Real.exp).prod = Real.exp xs.sum := by
  induction xs with
  | nil => simp
  | cons x xs ih => simp [ih, Real.exp_add]

/-- Helper: every post-softmax attention weight is strictly positive in
exact real arithmetic when the sequence length is positive. -/
theorem attWeights_pos (ne nh T : ℕ) (p : CSAParams) (x : ℕ → ℕ → ℕ → ℝ)
    (mask : ℕ → ℕ → ℕ) (b h t u : ℕ) (hT : 0 < T) :
    0 < attWeights ne nh T p x mask b h t u := by
  unfold attWeights
  refine div_pos (Real.exp_pos _) ?_
  exact Finset.sum_pos (fun i _ => Real.exp_pos _) ⟨0, Finset.mem_range.mpr hT⟩

/-! ## Claim theorems -/

/-- C1 (amended): in ensembling mode the driver's combined value at every
position is the geometric mean of the individual models' probabilities —
the `n`-th root of the product of the exponentials of their
log-probabilities, equivalently the exponential of the averaged
log-probabilities — a log-domain mixture, not the arithmetic mean of the
probabilities. -/
theorem ensemble_combines_in_log_domain (logps : List (ℕ → ℝ)) (t : ℕ) :
    ensemble_p logps t =
      ((logps.map (fun l => Real.exp (l t))).prod) ^ ((logps.length : ℝ)⁻¹) := by
  have h1 : (logps.map (fun l => Real.exp (l t))).prod
      = Real.exp ((logps.map (fun l => l t)).sum) := by
    rw [show (logps.map fun l => Real.exp (l t))
          = (logps.map fun l => l t).map Real.exp by
        simp [List.map_map, Function.comp]]
    exact prod_map_exp _
  rw [h1, Real.rpow_def_of_pos (Real.exp_pos _), Real.log_exp]
  unfold ensemble_p ensemble_avg_log_p
  rw [foldl_add_apply, zero_add, div_eq_mul_inv]

/-- C1 counterexample: with two checkpoints whose log-probabilities at
position 0 are `0` and `log (1/4)`, the driver's combined value is `1/2`
(the geometric mean of the probabilities 1 and 1/4), while the arithmetic
mean of the probabilities claimed by the spec is `5/8`. -/
theorem ensemble_not_mean_of_probs_cex :
    ensemble_p [fun _ => (0 : ℝ), fun _ => Real.log (1 / 4)] 0 ≠
      spec_ensemble_p [fun _ => (0 : ℝ), fun _ => Real.log (1 / 4)] 0 := by
  have hL : ensemble_p [fun _ => (0 : ℝ), fun _ => Real.log (1 / 4)] 0 = 1 / 2 := by
    unfold ensemble_p ensemble_avg_log_p
    simp only [List.foldl, List.length_cons, List.length_nil, zero_add]
    norm_num
    rw [div_eq_mul_inv, ← Real.rpow_def_of_pos (by norm_num : (0 : ℝ) < 1 / 4)]
    rw [show ((1 : ℝ) / 4) = (1 / 2) ^ ((2 : ℕ) : ℝ) by
          rw [Real.rpow_natCast]; norm_num]
    rw [← Real.rpow_mul (by norm_num : (0 : ℝ) ≤ 1 / 2)]
    norm_num
  have hR : spec_ensemble_p [fun _ => (0 : ℝ), fun _ => Real.log (1 / 4)] 0 = 5 / 8 := by
    unfold spec_ensemble_p
    simp [Real.exp_zero, Real.exp_log (show (0 : ℝ) < 1 / 4 by norm_num)]
    rw [Real.exp_neg, Real.exp_log (by norm_num : (0 : ℝ) < 4)]
    norm_num
  rw [hL, hR]
  norm_num

/-- C2 (amended): in every call of `CausalSelfAttention.forward`, key
positions where `mask == 0` receive the large negative score `-1e10`
before the softmax; in the concrete scenario (hidden size 4, 2 heads,
sequence length 5, mask row `[1,1,1,0,0]`), for every query position the
post-softmax weights of that row at key positions 3 and 4 are strictly
positive but bounded by `exp (-1e10 - s₀)` (where `s₀` is the raw score at
the valid key 0) — effectively zero, but exactly zero only through
floating-point underflow, not in exact arithmetic. -/
theorem attn_masked_fill_and_weights :
    (∀ (ne nh : ℕ) (p : CSAParams) (x : ℕ → ℕ → ℕ → ℝ) (mask : ℕ → ℕ → ℕ)
        (b h t u : ℕ), mask b u = 0 →
        attMasked ne nh p x mask b h t u = (-1e10 : ℝ))
    ∧ (∀ (p : CSAParams) (x : ℕ → ℕ → ℕ → ℝ) (h t u : ℕ), t < 5 →
        (u = 3 ∨ u = 4) →
        0 < attWeights 4 2 5 p x scenarioMask 0 h t u ∧
        attWeights 4 2 5 p x scenarioMask 0 h t u ≤
          Real.exp ((-1e10 : ℝ) - attScores 4 2 p x 0 h t 0)) := by
  constructor
  · intro ne nh p x mask b h t u hm
    simp [attMasked, hm]
  · intro p x h t u _ hu
    have hm : scenarioMask 0 u = 0 := by
      rcases hu with rfl | rfl <;> rfl
    refine ⟨attWeights_pos 4 2 5 p x scenarioMask 0 h t u (by norm_num), ?_⟩
    have h0 : attMasked 4 2 p x scenarioMask 0 h t 0 = attScores 4 2 p x 0 h t 0 := by
      simp [attMasked, scenarioMask]
    have hZ : Real.exp (attScores 4 2 p x 0 h t 0) ≤
        ∑ u' ∈ Finset.range 5, Real.exp (attMasked 4 2 p x scenarioMask 0 h t u') := by
      rw [← h0]
      exact Finset.single_le_sum
        (f := fun u' => Real.exp (attMasked 4 2 p x scenarioMask 0 h t u'))
        (fun i _ => (Real.exp_pos _).le) (Finset.mem_range.mpr (by norm_num))
    have hmu : attMasked 4 2 p x scenarioMask 0 h t u = (-1e10 : ℝ) := by
      simp [attMasked, hm]
    unfold attWeights
    rw [hmu, Real.exp_sub]
    gcongr

/-- C2 witness: the amended statement instantiated with all-zero weights
and inputs at query position 0 and masked key position 3. -/
theorem attn_masked_fill_and_weights_w :
    attMasked 4 2 zeroParams zeroX scenarioMask 0 0 0 3 = (-1e10 : ℝ) ∧
    (0 < attWeights 4 2 5 zeroParams zeroX scenarioMask 0 0 0 3 ∧
      attWeights 4 2 5 zeroParams zeroX scenarioMask 0 0 0 3 ≤
        Real.exp ((-1e10 : ℝ) - attScores 4 2 zeroParams zeroX 0 0 0 0)) :=
  ⟨attn_masked_fill_and_weights.1 4 2 zeroParams zeroX scenarioMask 0 0 0 3 rfl,
   attn_masked_fill_and_weights.2 zeroParams zeroX 0 0 3 (by norm_num) (Or.inl rfl)⟩

/-- C2 counterexample: with all-zero weights and inputs, the post-softmax
attention weight of masked row 0 at key position 3 is not exactly 0 in
exact real arithmetic (it is strictly positive), refuting the claim's
"exactly 0". -/
theorem attn_masked_weight_not_zero_cex :
    attWeights 4 2 5 zeroParams zeroX scenarioMask 0 0 0 3 ≠ 0 :=
  ne_of_gt (attWeights_pos 4 2 5 zeroParams zeroX scenarioMask 0 0 0 3 (by norm_num))

/-- Helper: the convolution loop preserves the diagonal `(x, x)` state and
computes the iterate of one conv sublayer step in both components. -/
theorem convLoop_diag {V M : Type} [Add V] (m : BlockM V M) :
    ∀ (n : ℕ) (x : V),
      Block.convLoop m n (x, x) =
        ((fun c => m.convolution (m.convLn c) + c)^[n] x,
         (fun c => m.convolution (m.convLn c) + c)^[n] x) := by
  intro n
  induction n with
  | zero => intro x; simp [Block.convLoop]
  | succ k ih =>
      intro x
      rw [Block.convLoop, Function.iterate_succ_apply]
      exact ih _

/-- C3: in `Block.forward` the attention sublayer computes
`y = dropout(LayerNorm(x))` and the new running activation is the triple
addition `y + attn(y, mask) + residual`, where `residual` is the
activation carried out of the convolution stage — and this differs from
the standard single-residual transformer wiring on a concrete
instantiation. -/
theorem block_attn_triple_residual :
    (∀ (V M : Type) [Add V] (m : BlockM V M) (n : ℕ) (tr : Bool) (x0 : V)
        (mask : M),
        Block.forwardM m n tr x0 mask =
          Block.ffStage m tr (Block.attnTripleAdd m tr mask (Block.convOut m n x0)))
    ∧ Block.forwardM blockId 0 false (1 : ℝ) () ≠
        Block.forwardStd blockId 0 false (1 : ℝ) () := by
  constructor
  · intro V M _ m n tr x0 mask
    simp only [Block.forwardM, Block.ffStage, Block.attnTripleAdd, Block.convOut,
      convLoop_diag]
  · simp only [Block.forwardM, Block.forwardStd, Block.ffStage, Block.attnStdAdd,
      Block.convOut, Block.convLoop, blockId, dropT, Function.iterate_zero, id]
    norm_num

/-- Helper: broadcasting a dimension against an equal dimension. -/
theorem bcDim_self (a : ℕ) : bcDim a a = some a := by
  simp [bcDim]

/-- Helper: broadcasting any dimension against a size-1 dimension. -/
theorem bcDim_one_right (a : ℕ) : bcDim a 1 = some a := by
  unfold bcDim
  split_ifs with h1 h2 <;> simp_all

/-- Helper: inside the shape, broadcast index adjustment is the identity. -/
theorem bIdx_lt {dim i : ℕ} (h : i < dim) : bIdx dim i = i := by
  unfold bIdx
  split_ifs with h1
  · omega
  · rfl

/-- Helper: when all three dimension pairs are broadcast-compatible,
`tensorAdd` succeeds with the broadcast shape and the index-adjusted sum. -/
theorem tensorAdd_eq_ok (x y : Tensor3) (d0 d1 d2 : ℕ)
    (h0 : bcDim x.dim0 y.dim0 = some d0) (h1 : bcDim x.dim1 y.dim1 = some d1)
    (h2 : bcDim x.dim2 y.dim2 = some d2) :
    tensorAdd x y = .ok ⟨d0, d1, d2, fun i j k =>
      x.data (bIdx x.dim0 i) (bIdx x.dim1 j) (bIdx x.dim2 k) +
        y.data (bIdx y.dim0 i) (bIdx y.dim1 j) (bIdx y.dim2 k)⟩ := by
  unfold tensorAdd
  rw [h0, h1, h2]

/-- C4: the positional-encoding table satisfies the analytic sinusoidal
formula (`table[p][2i] = sin(p·exp(2i·(−ln 10000 / n_embd)))`, odd entries
the matching cosine), and for `T ≤ seq_len` the forward pass returns the
input plus the table sliced to the first `T` rows, entrywise exactly. -/
theorem pe_table_matches_formula (n_embd seq_len : ℕ) (x : Tensor3) (p i : ℕ) :
    (p < seq_len → 2 * i + 1 < n_embd → peFormulaAt n_embd p i)
    ∧ (x.dim2 = n_embd → x.dim1 ≤ seq_len → peForwardOk n_embd seq_len x) := by
  constructor
  · intro _ _
    unfold peFormulaAt peVal
    constructor
    · have h1 : (2 * i) % 2 = 0 := by omega
      have h2 : (2 * i) / 2 = i := by omega
      simp [h1, h2, neg_div]
    · have h1 : (2 * i + 1) % 2 = 1 := by omega
      have h2 : (2 * i + 1) / 2 = i := by omega
      simp only [h1, h2, neg_div]
      norm_num
  · intro hdim2 hle
    have hmin : min x.dim1 seq_len = x.dim1 := min_eq_left hle
    have hOk := tensorAdd_eq_ok x (sliceDim1 (peTable n_embd seq_len) x.dim1)
      x.dim0 x.dim1 x.dim2
      (by simpa [sliceDim1, peTable] using bcDim_one_right x.dim0)
      (by simp [sliceDim1, peTable, hmin, bcDim_self])
      (by simp [sliceDim1, peTable, hdim2, bcDim_self])
    refine ⟨_, hOk, rfl, rfl, rfl, ?_⟩
    intro b t j hb ht hj
    simp only [sliceDim1, peTable, hmin, hdim2]
    rw [bIdx_lt hb, bIdx_lt ht, bIdx_lt (hdim2 ▸ hj)]

/-- C4 witness: the table formula at position 0, feature pair (2, 3) of a
4-dimensional embedding, and a successful forward pass on a `[1, 2, 4]`
zero tensor against the default 1000-row table. -/
theorem pe_table_matches_formula_w :
    peFormulaAt 4 0 1 ∧ peForwardOk 4 1000 ⟨1, 2, 4, zeroX⟩ :=
  ⟨(pe_table_matches_formula 4 1000 ⟨1, 2, 4, zeroX⟩ 0 1).1 (by norm_num)
      (by norm_num),
   (pe_table_matches_formula 4 1000 ⟨1, 2, 4, zeroX⟩ 0 1).2 rfl (by norm_num)⟩

/-- C5 (amended): for every input whose sequence length exceeds the
1000-row table, `position_encoding.forward` fails with a hard error at
forward time — a broadcast size-mismatch error raised when the input is
added to the sliced table, not an index-out-of-range error — and never
silently truncates the input. -/
theorem pe_overlong_input_hard_error (n_embd : ℕ) (x : Tensor3)
    (h : 1000 < x.dim1) :
    position_encoding.forward n_embd 1000 x = .error .broadcastMismatch := by
  unfold position_encoding.forward
  have h1 : bcDim x.dim1 (sliceDim1 (peTable n_embd 1000) x.dim1).dim1 = none := by
    have hmin : min x.dim1 (1000 : ℕ) = 1000 := min_eq_right (by omega)
    simp only [sliceDim1, peTable, hmin]
    unfold bcDim
    rw [if_neg (by omega), if_neg (by omega), if_neg (by omega)]
  unfold tensorAdd
  rcases h0 : bcDim x.dim0 (sliceDim1 (peTable n_embd 1000) x.dim1).dim0 with _ | d0 <;>
    rcases h2 : bcDim x.dim2 (sliceDim1 (peTable n_embd 1000) x.dim1).dim2 with _ | d2 <;>
      simp [h0, h1, h2]

/-- C5 witness: the amended statement instantiated on a `[1, 1001, 4]`
zero tensor. -/
theorem pe_overlong_input_hard_error_w :
    position_encoding.forward 4 1000 ⟨1, 1001, 4, zeroX⟩ =
      .error .broadcastMismatch :=
  pe_overlong_input_hard_error 4 ⟨1, 1001, 4, zeroX⟩ (by norm_num)

/-- C5 counterexample: on a `[2, 1001, 4]` input the forward pass raises a
broadcast size-mismatch error, which is a different error kind from the
index-out-of-range error named by the claim. -/
theorem pe_overlong_error_kind_cex :
    position_encoding.forward 4 1000 ⟨2, 1001, 4, zeroX⟩ =
      .error .broadcastMismatch
    ∧ TorchErr.broadcastMismatch ≠ TorchErr.indexOutOfRange := by
  exact ⟨rfl, by decide⟩

/-- Helper: the spec-modelled masked softmax yields a probability
distribution over the valid positions (sums to 1 there) and assigns 0 to
every masked position, provided at least one position is valid. -/
theorem masked_softmax_probs_dist (s : ℕ → ℝ) (mask : ℕ → ℕ) (T : ℕ)
    (hvalid : ∃ t, t < T ∧ mask t ≠ 0) :
    (∑ t ∈ (Finset.range T).filter (fun t => mask t ≠ 0),
        masked_softmax_probs s mask T t) = 1
    ∧ ∀ t, mask t = 0 → masked_softmax_probs s mask T t = 0 := by
  obtain ⟨t0, ht0, hm0⟩ := hvalid
  have hne : ((Finset.range T).filter (fun t => mask t ≠ 0)).Nonempty :=
    ⟨t0, Finset.mem_filter.mpr ⟨Finset.mem_range.mpr ht0, hm0⟩⟩
  have hZ : 0 < ∑ u ∈ (Finset.range T).filter (fun u => mask u ≠ 0),
      Real.exp (s u) :=
    Finset.sum_pos (fun i _ => Real.exp_pos _) hne
  constructor
  · have hcongr : ∀ t ∈ (Finset.range T).filter (fun t => mask t ≠ 0),
        masked_softmax_probs s mask T t =
          Real.exp (s t) /
            ∑ u ∈ (Finset.range T).filter (fun u => mask u ≠ 0), Real.exp (s u) := by
      intro t ht
      obtain ⟨htT, htm⟩ := Finset.mem_filter.mp ht
      simp [masked_softmax_probs, Finset.mem_range.mp htT, htm]
    rw [Finset.sum_congr rfl hcongr, ← Finset.sum_div,
      div_self (ne_of_gt hZ)]
  · intro t hmt
    simp [masked_softmax_probs, hmt]

/-- C6: for every mask with at least one valid position in a batch row,
both distributions returned by `QANetOutput.forward` (read after
exponentiation, per the spec model of the masked log-softmax) sum to 1
over the valid positions of that row, and every masked position receives
probability 0 regardless of its raw logit. -/
theorem qanet_output_valid_distribution (H T : ℕ) (w1 w2 : ℕ → ℝ)
    (M1 M2 M3 : ℕ → ℕ → ℕ → ℝ) (mask : ℕ → ℕ → ℕ) (b : ℕ)
    (hvalid : ∃ t, t < T ∧ mask b t ≠ 0) :
    qanetDistOk H T w1 w2 M1 M2 M3 mask b := by
  obtain ⟨h1, h2⟩ := masked_softmax_probs_dist
    (fun t => ∑ j ∈ Finset.range (2 * H), w1 j * cat2 H (M1 b t) (M2 b t) j)
    (mask b) T hvalid
  obtain ⟨h3, h4⟩ := masked_softmax_probs_dist
    (fun t => ∑ j ∈ Finset.range (2 * H), w2 j * cat2 H (M2 b t) (M3 b t) j)
    (mask b) T hvalid
  exact ⟨h1, h2, h3, h4⟩

/-- C6 witness: the distribution guarantee instantiated at `H = 1`,
`T = 1`, zero weights and snapshots, and an all-valid mask. -/
theorem qanet_output_valid_distribution_w :
    qanetDistOk 1 1 (fun _ => 0) (fun _ => 0) zeroX zeroX zeroX
      (fun _ _ => 1) 0 :=
  qanet_output_valid_distribution 1 1 (fun _ => 0) (fun _ => 0) zeroX zeroX
    zeroX (fun _ _ => 1) 0 ⟨0, by norm_num⟩

/-- C7: constructing `CausalSelfAttention` succeeds exactly when `n_embd`
is divisible by `n_head`; indivisibility raises the assertion error at
construction time; and on any successfully constructed module the
divisibility-related reshape at forward time can never fail. -/
theorem csa_divisibility_checked_at_init (ne nh : ℕ) (ap rp : ℚ) (bs : ℕ) :
    ((CausalSelfAttention.init ne nh ap rp bs).isOk = true ↔ ne % nh = 0)
    ∧ (ne % nh ≠ 0 →
        CausalSelfAttention.init ne nh ap rp bs = .error .assertionError)
    ∧ (∀ sh, CausalSelfAttention.init ne nh ap rp bs = .ok sh →
        ∀ (p : CSAParams) (T : ℕ) (x : ℕ → ℕ → ℕ → ℝ) (mask : ℕ → ℕ → ℕ),
          (CausalSelfAttention.forwardChecked sh p T x mask).isOk = true) := by
  unfold CausalSelfAttention.init
  by_cases h : ne % nh = 0
  · rw [if_pos h]
    refine ⟨Iff.intro (fun _ => h) (fun _ => rfl), fun hc => absurd h hc, ?_⟩
    intro sh hsh p T x mask
    injection hsh with hsh'
    subst hsh'
    unfold CausalSelfAttention.forwardChecked
    rw [if_pos (Nat.mul_div_cancel' (Nat.dvd_of_mod_eq_zero h))]
    rfl
  · rw [if_neg h]
    refine ⟨?_, fun _ => rfl, fun sh hsh => by cases hsh⟩
    simp only [Except.isOk, h]
    exact Iff.intro (fun hh => by cases hh) False.elim

/-- C7 witness: with `n_embd = 3`, `n_head = 2` the constructor raises the
assertion error, and on the module built with `n_embd = 4`, `n_head = 2`
the checked forward pass succeeds. -/
theorem csa_divisibility_checked_at_init_w :
    CausalSelfAttention.init 3 2 0 0 128 = .error .assertionError
    ∧ (CausalSelfAttention.forwardChecked ⟨4, 2, 0, 0, 128⟩ zeroParams 5 zeroX
        scenarioMask).isOk = true :=
  ⟨(csa_divisibility_checked_at_init 3 2 0 0 128).2.1 (by norm_num),
   (csa_divisibility_checked_at_init 4 2 0 0 128).2.2 ⟨4, 2, 0, 0, 128⟩ rfl
     zeroParams 5 zeroX scenarioMask⟩

/-- C8: the submission file consists of the exact header
`['Id', 'Predicted']` followed by one row per example id of `sub_dict`
(the row ids are a permutation of the dict's keys), with the rows sorted
by uuid in ascending order, each row pairing a uuid with its dict value. -/
theorem submission_header_and_sorted (sub : List (String × String)) :
    (writeSubmission sub).head? = some ["Id", "Predicted"]
    ∧ List.Sorted (· ≤ ·)
        (((writeSubmission sub).tail).map (fun r => r.headD ""))
    ∧ List.Perm (((writeSubmission sub).tail).map (fun r => r.headD ""))
        (sub.map Prod.fst)
    ∧ ∀ r ∈ (writeSubmission sub).tail,
        ∃ u, u ∈ sub.map Prod.fst ∧ r = [u, ((sub.lookup u).getD "")] := by
  have hids : ((writeSubmission sub).tail).map (fun r => r.headD "")
      = (sub.map Prod.fst).insertionSort (· ≤ ·) := by
    simp only [writeSubmission, List.tail_cons, List.map_map]
    have hcomp : ((fun r : List String => r.headD "") ∘
        fun u : String => [u, ((sub.lookup u).getD "")]) = fun u => u := by
      funext u
      rfl
    rw [hcomp]
    simp
  refine ⟨rfl, ?_, ?_, ?_⟩
  · rw [hids]
    exact List.sorted_insertionSort _ _
  · rw [hids]
    exact List.perm_insertionSort _ _
  · intro r hr
    simp only [writeSubmission, List.tail_cons, List.mem_map] at hr
    obtain ⟨u, hu, rfl⟩ := hr
    exact ⟨u, by simpa using hu, rfl⟩

/-- C9: because `QANetOutput.forward` applies an unqualified `squeeze()`
to the `[B, T, 1]` projected scores, the returned tensors have the
documented two-dimensional `[B, T]` shape exactly when `B > 1` and
`T > 1`; with `B = 1` (or `T = 1`) the batch (or sequence) dimension is
removed as well. -/
theorem qanet_output_degenerate_squeeze (B T : ℕ) (hB : 1 ≤ B) (hT : 1 ≤ T) :
    ((QANetOutput.outShape B T = [B, T]) ↔ (2 ≤ B ∧ 2 ≤ T))
    ∧ (B = 1 → T = 1 → QANetOutput.outShape B T = [])
    ∧ (B = 1 → 2 ≤ T → QANetOutput.outShape B T = [T])
    ∧ (2 ≤ B → T = 1 → QANetOutput.outShape B T = [B]) := by
  unfold QANetOutput.outShape squeezeShape
  by_cases hB1 : B = 1 <;> by_cases hT1 : T = 1
  · subst hB1; subst hT1
    refine ⟨Iff.intro (fun hc => by simp at hc) (fun hc => by omega), ?_, ?_, ?_⟩
    · intro _ _; rfl
    · intro _ hc; omega
    · intro hc; omega
  · subst hB1
    have h2T : 2 ≤ T := by omega
    refine ⟨?_, fun _ hc => absurd hc hT1, ?_, fun hc => by omega⟩
    · rw [show List.filter (fun d => decide (d ≠ 1)) [1, T, 1] = [T] by
        simp [List.filter, hT1]]
      exact Iff.intro (fun hc => by simp at hc) (fun hc => by omega)
    · intro _ _
      simp [List.filter, hT1]
  · subst hT1
    have h2B : 2 ≤ B := by omega
    refine ⟨?_, fun hc => absurd hc hB1, fun hc => absurd hc hB1, ?_⟩
    · rw [show List.filter (fun d => decide (d ≠ 1)) [B, 1, 1] = [B] by
        simp [List.filter, hB1]]
      exact Iff.intro (fun hc => by simp at hc) (fun hc => by omega)
    · intro _ _
      simp [List.filter, hB1]
  · have h2B : 2 ≤ B := by omega
    have h2T : 2 ≤ T := by omega
    refine ⟨?_, fun hc => absurd hc hB1, fun hc => absurd hc hB1,
      fun _ hc => absurd hc hT1⟩
    rw [show List.filter (fun d => decide (d ≠ 1)) [B, T, 1] = [B, T] by
      simp [List.filter, hB1, hT1]]
    exact Iff.intro (fun _ => ⟨h2B, h2T⟩) (fun _ => rfl)

/-- C9 witness: the shape statement instantiated at batch size 1 and
sequence length 5: the output shape is `[5]`, not the documented
`[1, 5]`. -/
theorem qanet_output_degenerate_squeeze_w :
    ((QANetOutput.outShape 1 5 = [1, 5]) ↔ (2 ≤ 1 ∧ 2 ≤ 5))
    ∧ (1 = 1 → 5 = 1 → QANetOutput.outShape 1 5 = [])
    ∧ (1 = 1 → 2 ≤ 5 → QANetOutput.outShape 1 5 = [5])
    ∧ (2 ≤ 1 → 5 = 1 → QANetOutput.outShape 1 5 = [1]) :=
  qanet_output_degenerate_squeeze 1 5 (by norm_num) (by norm_num)

/-- C10: `Block.__init__` always builds its attention sublayer with the
hard-coded head count 8 and attention dropout 0.1 whatever its own
arguments are, so construction succeeds exactly when `hidden_size` is
divisible by 8 and otherwise fails with the assertion error, even though
`Block`'s own parameters impose no such restriction. -/
theorem block_hard_coded_head_count (hs : ℕ) (rp : ℚ) (nc : ℕ) :
    (hs % 8 = 0 →
      Block.init hs rp nc = .ok ⟨hs, rp, nc, ⟨hs, 8, 1 / 10, rp, 128⟩⟩)
    ∧ (hs % 8 ≠ 0 → Block.init hs rp nc = .error .assertionError) := by
  constructor
  · intro h
    simp [Block.init, CausalSelfAttention.init, h]
  · intro h
    simp [Block.init, CausalSelfAttention.init, h]

/-- C10 witness: with `hidden_size = 8` the block is built with an
attention sublayer of 8 heads and dropout 1/10; with `hidden_size = 9`
construction fails with the assertion error. -/
theorem block_hard_coded_head_count_w :
    Block.init 8 0 1 = .ok ⟨8, 0, 1, ⟨8, 8, 1 / 10, 0, 128⟩⟩
    ∧ Block.init 9 0 1 = .error .assertionError :=
  ⟨(block_hard_coded_head_count 8 0 1).1 (by norm_num),
   (block_hard_coded_head_count 9 0 1).2 (by norm_num)⟩
